import Mathlib

/-!
# Verification of the sunlight certificate-compliance core

A shallow embedding of `sunlight.go` (package `sunlight`): the compliance
evaluator `CalculateCertSummary`, the issuer-reputation aggregator
(`IssuerReputation.Update` / `Finish`), the name formatter
`DistinguishedNameToString`, and the month bucketer `TruncateMonth`.

Modelling conventions:

* Go `float32` values are modelled exactly, by the type `F` below: a finite
  rational (`F.fin q`) or the collapsed class of non-finite values
  (`F.nonfin`, covering NaN and ±Inf).  Finite arithmetic is idealized as
  exact rational arithmetic (float rounding is not modelled); every
  operation that produces a non-finite float32 (division by zero, or any
  operation on a non-finite operand) produces `F.nonfin`.
* Go `uint64` / `int64` casts are modelled on `Nat`/`Int` with explicit
  `% 2^64` wrapping (`toUInt64` / `toInt64`).  Go's integer division
  (truncation toward zero) is `Int.tdiv`.
* Go maps (`map[string]bool`, `map[string]*IssuerReputationScore`) are
  modelled as association lists.  A Go map cannot contain a duplicated key;
  theorems that need this fact take a `Nodup` hypothesis on the key list.
  Go's randomized map iteration order is modelled by the list order: all
  per-key effects performed by the code act on distinct keys, and the
  accumulations are exact rational sums, so the order is immaterial.
* The Go standard-library time package (`time.Unix`, `time.Date`, `Year`,
  `Month`, `AddDate`) is modelled by a proleptic-Gregorian calendar over
  seconds since the Unix epoch (the algorithm is the standard civil-calendar
  era decomposition, which agrees with Go's calendrical code over the whole
  representable range).  `time.Unix` yields a value in the process-local
  timezone; `TruncateMonth` is documented in the source as returning "the
  GMT time of the month", and the model fixes the local timezone to UTC.
  Sub-second precision (nanoseconds) is not modelled; certificate validity
  times and CT timestamps are whole seconds/milliseconds.
* External collaborators that are consumed but not defined by this
  repository — `idna.ToASCII`, `net.ParseIP`, `net.IP.Equal`,
  `net.IP.String`, `strings.EqualFold`, SHA-256/base64 fingerprinting, and
  the alexa popularity ranker — are modelled as components of an explicit
  environment (`Ext`, and the `ranker` argument), exactly as the spec
  treats them (§1: "consumed as external collaborators").
-/

namespace Sunlight

/-! ## Go time package: proleptic Gregorian calendar

`yf`/`yS` are the year-of-era machinery of the standard civil-from-days
algorithm: for a day-of-era `doe` (days since March 1 of a 400-year era),
`yf doe` is its year-of-era, and `yS yoe` is the day-of-era of March 1 of
year-of-era `yoe`. -/

/-- Numerator of the year-of-era formula. -/
def yg (doe : Nat) : Nat := doe - doe / 1460 + doe / 36524 - doe / 146096

/-- Year-of-era of a day-of-era. -/
def yf (doe : Nat) : Nat := yg doe / 365

/-- Day-of-era of March 1 of a year-of-era. -/
def yS (yoe : Nat) : Nat := 365 * yoe + yoe / 4 - yoe / 100

theorem yg_step (n : Nat) : yg n ≤ yg (n + 1) := by
  unfold yg
  omega

theorem yg_mono {a b : Nat} (h : a ≤ b) : yg a ≤ yg b := by
  induction b, h using Nat.le_induction with
  | base => exact le_refl _
  | succ n _ ih => exact le_trans ih (yg_step n)

theorem yf_mono {a b : Nat} (h : a ≤ b) : yf a ≤ yf b :=
  Nat.div_le_div_right (yg_mono h)

/-- Bounded checker used to discharge the finitely many year-of-era
interval endpoints by kernel computation. -/
def allBelow (f : Nat → Bool) : Nat → Bool
  | 0 => true
  | n + 1 => f n && allBelow f n

theorem allBelow_eq_true {f : Nat → Bool} : ∀ {n : Nat}, allBelow f n = true →
    ∀ i, i < n → f i = true := by
  intro n
  induction n with
  | zero => intro _ i h; omega
  | succ k ih =>
    intro h i hi
    simp only [allBelow, Bool.and_eq_true] at h
    rcases Nat.lt_succ_iff_lt_or_eq.mp hi with h' | h'
    · exact ih h.2 i h'
    · subst h'; exact h.1

/-- `yf` is the year-of-era containing the day: endpoint check. -/
def endpointOk (y : Nat) : Bool :=
  (yf (yS y) == y) && (yf (yS (y + 1) - 1) == y)

set_option maxRecDepth 40000 in
theorem endpoint_all : allBelow endpointOk 400 = true := by decide

theorem yS_step_ge (y : Nat) : yS y + 365 ≤ yS (y + 1) := by
  unfold yS
  omega

theorem yS_step_le (y : Nat) : yS (y + 1) ≤ yS y + 366 := by
  unfold yS
  omega

theorem yS_mono {a b : Nat} (h : a ≤ b) : yS a ≤ yS b := by
  induction b, h using Nat.le_induction with
  | base => exact le_refl _
  | succ n _ ih => exact le_trans ih (by have := yS_step_ge n; omega)

theorem yf_le_399 {doe : Nat} (h : doe < 146097) : yf doe ≤ 399 := by
  have h1 : yf doe ≤ yf 146096 := yf_mono (by omega)
  have he : yf 146096 = 399 := by
    have h2 := allBelow_eq_true endpoint_all 399 (by omega)
    simp only [endpointOk, Bool.and_eq_true, beq_iff_eq] at h2
    have h3 := h2.2
    norm_num [yS] at h3
    exact h3
  omega

/-- Correctness of the year-of-era formula: every day-of-era lies in its
year-of-era, at day-of-year at most 365. -/
theorem yf_correct {doe : Nat} (h : doe < 146097) :
    yS (yf doe) ≤ doe ∧ doe - yS (yf doe) ≤ 365 ∧ yf doe < 400 := by
  have h400 : yf doe ≤ 399 := yf_le_399 h
  have hep := allBelow_eq_true endpoint_all (yf doe) (by omega)
  simp only [endpointOk, Bool.and_eq_true, beq_iff_eq] at hep
  have hlow : yS (yf doe) ≤ doe := by
    by_contra hc
    push_neg at hc
    have hy0 : yf doe ≠ 0 := by
      intro h0
      rw [h0] at hc
      simp [yS] at hc
    have hep' := allBelow_eq_true endpoint_all (yf doe - 1) (by omega)
    simp only [endpointOk, Bool.and_eq_true, beq_iff_eq] at hep'
    have he1 : yf doe - 1 + 1 = yf doe := by omega
    rw [he1] at hep'
    have hmono := yf_mono (show doe ≤ yS (yf doe) - 1 by omega)
    rw [hep'.2] at hmono
    omega
  refine ⟨hlow, ?_, by omega⟩
  rcases Nat.lt_or_ge (yf doe + 1) 400 with h4 | h4
  · have hup : doe < yS (yf doe + 1) := by
      by_contra hc
      push_neg at hc
      have hep' := allBelow_eq_true endpoint_all (yf doe + 1) h4
      simp only [endpointOk, Bool.and_eq_true, beq_iff_eq] at hep'
      have hmono := yf_mono hc
      rw [hep'.1] at hmono
      omega
    have := yS_step_le (yf doe)
    omega
  · have hy : yf doe = 399 := by omega
    have h399 : yS 399 = 145731 := by norm_num [yS]
    rw [hy]
    omega

/-- A day-of-era lying in the interval of year-of-era `yoe` has that
year-of-era. -/
theorem yf_eq_of_mem {yoe doe : Nat} (h4 : yoe < 400) (h1 : yS yoe ≤ doe)
    (h2 : doe < 146097) (h3 : yoe = 399 ∨ doe < yS (yoe + 1)) : yf doe = yoe := by
  have hep := allBelow_eq_true endpoint_all yoe h4
  simp only [endpointOk, Bool.and_eq_true, beq_iff_eq] at hep
  have hge : yoe ≤ yf doe := by
    have := yf_mono h1
    rw [hep.1] at this
    exact this
  rcases h3 with h3 | h3
  · have := yf_le_399 h2
    omega
  · have hle : yf doe ≤ yoe := by
      have hmono := yf_mono (show doe ≤ yS (yoe + 1) - 1 by omega)
      rw [hep.2] at hmono
      exact hmono
    omega

/-- The civil (proleptic Gregorian, UTC) date of a day count relative to
1970-01-01: year, month (1-12), day (1-31).  This models the date
computation of Go's `time` package (`Year()`, `Month()`, `Day()`). -/
def civilYMD (z : Int) : Int × Nat × Nat :=
  let zs := z + 719468
  let era := zs / 146097
  let doe := (zs % 146097).toNat
  let yoe := yf doe
  let doy := doe - yS yoe
  let mp := (5 * doy + 2) / 153
  let d := doy - (153 * mp + 2) / 5 + 1
  let m := if mp < 10 then mp + 3 else mp - 9
  (era * 400 + (yoe : Int) + (if m ≤ 2 then 1 else 0), m, d)

/-- The day count (relative to 1970-01-01) of a civil date.  This models
Go's `time.Date(y, m, d, ...)`: the day `d` need not lie inside the month,
it is normalized by linear day arithmetic exactly as Go does.  Only called
with `1 ≤ m ≤ 12` and `1 ≤ d`. -/
def daysFromCivil (y : Int) (m d : Nat) : Int :=
  let ya := y - (if m ≤ 2 then 1 else 0)
  let era := ya / 400
  let yoe := (ya % 400).toNat
  let mp := if 2 < m then m - 3 else m + 9
  let doy := (153 * mp + 2) / 5 + d - 1
  era * 146097 + ((yS yoe + doy : Nat) : Int) - 719468

theorem doe_lt (zs : Int) : (zs % 146097).toNat < 146097 := by
  have h1 := Int.emod_nonneg zs (show (146097 : Int) ≠ 0 by norm_num)
  have h2 := Int.emod_lt_of_pos zs (show (0 : Int) < 146097 by norm_num)
  omega

/-- The month produced by `civilYMD` lies in `[1, 12]`. -/
theorem civilYMD_month_range (z : Int) :
    1 ≤ (civilYMD z).2.1 ∧ (civilYMD z).2.1 ≤ 12 := by
  unfold civilYMD
  set doe := ((z + 719468) % 146097).toNat with hdoe
  have hlt : doe < 146097 := doe_lt _
  have hc := yf_correct hlt
  simp only
  set doy := doe - yS (yf doe) with hdoy
  have hdoy365 : doy ≤ 365 := hc.2.1
  set mp := (5 * doy + 2) / 153 with hmp
  have hmp11 : mp ≤ 11 := by omega
  split <;> omega

/-- Round trip: converting a civil date (at day 1) to a day count and back
recovers the date. -/
theorem civilYMD_daysFromCivil (y : Int) (m : Nat) (h1 : 1 ≤ m) (h2 : m ≤ 12) :
    civilYMD (daysFromCivil y m 1) = (y, m, 1) := by
  unfold daysFromCivil
  set ya := y - (if m ≤ 2 then 1 else 0) with hya
  set era := ya / 400 with hera
  set yoeI := ya % 400 with hyoeI
  have hyoeI0 : 0 ≤ yoeI := Int.emod_nonneg ya (by norm_num)
  have hyoeI400 : yoeI < 400 := Int.emod_lt_of_pos ya (by norm_num)
  set yoe := yoeI.toNat with hyoe
  have hyoe400 : yoe < 400 := by omega
  set mp := if 2 < m then m - 3 else m + 9 with hmpd
  have hmp11 : mp ≤ 11 := by rw [hmpd]; split <;> omega
  set doy := (153 * mp + 2) / 5 + 1 - 1 with hdoyd
  have hdoy : doy = (153 * mp + 2) / 5 := by omega
  have hdoy337 : doy ≤ 337 := by omega
  set D := yS yoe + doy with hD
  have hyS399 : yS yoe ≤ 145731 := by
    have := yS_mono (show yoe ≤ 399 by omega)
    have h399 : yS 399 = 145731 := by norm_num [yS]
    omega
  have hD146097 : D < 146097 := by omega
  have hzs : era * 146097 + (D : Int) - 719468 + 719468 = (D : Int) + era * 146097 := by
    ring
  have hediv : ((D : Int) + era * 146097) / 146097 = era := by
    rw [Int.add_mul_ediv_right _ _ (show (146097 : Int) ≠ 0 by norm_num)]
    rw [Int.ediv_eq_zero_of_lt (by positivity) (by exact_mod_cast hD146097)]
    ring
  have hemod : (((D : Int) + era * 146097) % 146097).toNat = D := by
    rw [Int.add_mul_emod_self]
    rw [Int.emod_eq_of_lt (by positivity) (by exact_mod_cast hD146097)]
    omega
  have hyfD : yf D = yoe := by
    apply yf_eq_of_mem hyoe400 (by omega) hD146097
    rcases Nat.lt_or_ge yoe 399 with h399 | h399
    · right
      have := yS_step_ge yoe
      omega
    · left; omega
  have hdoyD : D - yS yoe = doy := by omega
  have hmpD : (5 * doy + 2) / 153 = mp := by omega
  have hdD : doy - (153 * mp + 2) / 5 + 1 = 1 := by omega
  have hmD : (if mp < 10 then mp + 3 else mp - 9) = m := by
    rcases Nat.lt_or_ge 2 m with hm2 | hm2
    · have hmp : mp = m - 3 := by rw [hmpd]; simp [hm2]
      rw [if_pos (show mp < 10 by omega)]
      omega
    · have hmp : mp = m + 9 := by
        rw [hmpd]
        simp [show ¬ (2 < m) by omega]
      rw [if_neg (show ¬ mp < 10 by omega)]
      omega
  have hrec : era * 400 + (yoe : Int) = ya := by
    have hdm := Int.ediv_add_emod ya 400
    have hcast : (yoe : Int) = yoeI := Int.toNat_of_nonneg hyoeI0
    rw [hcast, hera, hyoeI]
    omega
  have hfst : era * 400 + (yoe : Int) + (if m ≤ 2 then (1 : Int) else 0) = y := by
    rw [hrec, hya]
    ring
  simp only [civilYMD]
  rw [hzs, hediv, hemod, hyfD, hdoyD, hmpD, hdD, hmD, hfst]

/-- Day count of the first day of the month containing day `z`
(Go: `time.Date(d.Year(), d.Month(), 1, 0, 0, 0, 0, time.UTC)`). -/
def monthStartDay (z : Int) : Int :=
  daysFromCivil (civilYMD z).1 (civilYMD z).2.1 1

theorem monthStartDay_idem (z : Int) :
    monthStartDay (monthStartDay z) = monthStartDay z := by
  have hr := civilYMD_month_range z
  have := civilYMD_daysFromCivil (civilYMD z).1 (civilYMD z).2.1 hr.1 hr.2
  unfold monthStartDay
  rw [this]

/-- Epoch second of the start of the month containing epoch second `s`
(UTC).  Go's `time.Unix(s, 0)` followed by `Year()`/`Month()` computes the
civil date of day `⌊s / 86400⌋`. -/
def monthStartSec (s : Int) : Int := monthStartDay (s / 86400) * 86400

theorem monthStartSec_idem (s : Int) :
    monthStartSec (monthStartSec s) = monthStartSec s := by
  unfold monthStartSec
  rw [Int.mul_ediv_cancel _ (show (86400 : Int) ≠ 0 by norm_num),
    monthStartDay_idem]

/-! ## TruncateMonth -/

/-- Go's `int64(t)` for a `uint64` value `t` (the model keeps `Nat` and
wraps explicitly). -/
def toInt64 (n : Nat) : Int :=
  if n % 2 ^ 64 < 2 ^ 63 then ((n % 2 ^ 64 : Nat) : Int)
  else ((n % 2 ^ 64 : Nat) : Int) - 2 ^ 64

/-- Go's `uint64(i)` for an `int64` value. -/
def toUInt64 (i : Int) : Nat := (i % (2 ^ 64 : Int)).toNat

/-- `TruncateMonth` from `sunlight.go`: given a time since the epoch in
milliseconds, the GMT start of its month, in milliseconds.  Mirrors the
source: `d := time.Unix(int64(t)/1000, 0)` (Go `/` truncates toward zero),
`truncated := time.Date(d.Year(), d.Month(), 1, 0, 0, 0, 0, time.UTC)`,
`return uint64(truncated.Unix()) * 1000` (`uint64` arithmetic wraps). -/
def TruncateMonth (t : Nat) : Nat :=
  let s : Int := (toInt64 t).tdiv 1000
  let truncatedUnix : Int := monthStartSec s
  (toUInt64 truncatedUnix * 1000) % 2 ^ 64

/-- When the month-start value (in milliseconds) fits in `int64`, the
`uint64` round trip performed by `TruncateMonth` is lossless. -/
theorem toInt64_truncateMonth (t : Nat)
    (h1 : -(2 ^ 63) ≤ monthStartSec ((toInt64 t).tdiv 1000) * 1000)
    (h2 : monthStartSec ((toInt64 t).tdiv 1000) * 1000 < 2 ^ 63) :
    toInt64 (TruncateMonth t) = monthStartSec ((toInt64 t).tdiv 1000) * 1000 := by
  set ms := monthStartSec ((toInt64 t).tdiv 1000) with hms
  have hu : TruncateMonth t = ((ms % 2 ^ 64).toNat * 1000) % 2 ^ 64 := rfl
  rw [hu]
  unfold toInt64
  split <;> omega

theorem truncateMonth_idem_aux (t : Nat)
    (h1 : -(2 ^ 63) ≤ monthStartSec ((toInt64 t).tdiv 1000) * 1000)
    (h2 : monthStartSec ((toInt64 t).tdiv 1000) * 1000 < 2 ^ 63) :
    TruncateMonth (TruncateMonth t) = TruncateMonth t := by
  have hti := toInt64_truncateMonth t h1 h2
  show (toUInt64 (monthStartSec ((toInt64 (TruncateMonth t)).tdiv 1000)) * 1000) % 2 ^ 64
      = TruncateMonth t
  rw [hti, Int.mul_tdiv_cancel _ (show (1000 : Int) ≠ 0 by norm_num),
    monthStartSec_idem]
  rfl

/-! ## float32 model -/

/-- Model of a Go `float32` value: either a finite value (idealized as an
exact rational) or a non-finite value (`NaN` and `±Inf`, collapsed to one
class — none of them lies in any real interval, which is all the claims
need).  Any arithmetic on a non-finite operand yields a non-finite result,
and division by (finite) zero yields a non-finite result, exactly as in
IEEE-754 float32. -/
inductive F where
  | fin (q : Rat)
  | nonfin
  deriving DecidableEq

namespace F

def add : F → F → F
  | fin a, fin b => fin (a + b)
  | _, _ => nonfin

def sub : F → F → F
  | fin a, fin b => fin (a - b)
  | _, _ => nonfin

def div : F → F → F
  | fin a, fin b => if b = 0 then nonfin else fin (a / b)
  | _, _ => nonfin

end F

/-! ## Distinguished names -/

/-- `crypto/x509/pkix.Name` (the fields `DistinguishedNameToString`
documents; `Names []AttributeTypeAndValue` is never read by the code). -/
structure PkixName where
  Country : List String
  Organization : List String
  OrganizationalUnit : List String
  Locality : List String
  Province : List String
  StreetAddress : List String
  PostalCode : List String
  SerialNumber : String
  CommonName : String
  deriving DecidableEq

/-- `maybeAppendFieldToBuffer` from `sunlight.go`: appends
`pre ++ field[0]` (with a `", "` separator if the buffer is non-empty) when
the field has a non-empty first value. -/
def maybeAppendFieldToBuffer (buffer : String) (field : List String) (pre : String) : String :=
  match field with
  | [] => buffer
  | f :: _ =>
    if 0 < f.length then
      (if 0 < buffer.length then buffer ++ ", " else buffer) ++ pre ++ f
    else buffer

/-- `DistinguishedNameToString` from `sunlight.go`: considers only the
first Organization value, the first OrganizationalUnit value, and the
CommonName. -/
def DistinguishedNameToString (n : PkixName) : String :=
  let b0 := ""
  let b1 := maybeAppendFieldToBuffer b0 n.Organization "O="
  let b2 := maybeAppendFieldToBuffer b1 n.OrganizationalUnit "OU="
  maybeAppendFieldToBuffer b2 [n.CommonName] "CN="

/-! ## Certificates and the external environment -/

/-- An IP address as Go's `net.IP`: a byte slice (length 4 or 16). -/
abbrev IPAddr := List Nat

/-- A tagged model of `cert.PublicKey` (Go inspects it dynamically with a
type assertion to `*rsa.PublicKey`): an RSA key carries its modulus and
public exponent; everything else is opaque. -/
inductive PublicKey where
  | rsa (modulus : Nat) (exponent : Int)
  | other
  deriving DecidableEq

/-- `math/big.Int.BitLen` of a natural number. -/
def goBitLen (n : Nat) : Nat := if n = 0 then 0 else Nat.log2 n + 1

/-- The fields of a parsed `x509.Certificate` read by the code.  Validity
times are epoch seconds (certificates carry whole-second precision). -/
structure Cert where
  Subject : PkixName
  Issuer : PkixName
  NotBefore : Int
  NotAfter : Int
  BasicConstraintsValid : Bool
  IsCA : Bool
  Version : Nat
  SignatureAlgorithm : Nat
  PublicKey : PublicKey
  DNSNames : List String
  IPAddresses : List IPAddr
  Raw : List Nat

/-- `x509.SignatureAlgorithm` constants (iota order in crypto/x509). -/
def SHA1WithRSA : Nat := 3
def DSAWithSHA1 : Nat := 7
def ECDSAWithSHA1 : Nat := 9

/-- External library functions consumed by the evaluator but defined
outside this repository: IDNA/Punycode conversion (`idna.ToASCII`, which
returns an error for some inputs — modelled as `none`), IP-literal parsing
(`net.ParseIP`), IP equality and formatting (`net.IP.Equal`,
`net.IP.String`), Unicode case-insensitive comparison
(`strings.EqualFold`), and the SHA-256/base64 fingerprint. -/
structure Ext where
  idnaToASCII : String → Option String
  parseIP : String → Option IPAddr
  ipEqual : IPAddr → IPAddr → Bool
  ipToString : IPAddr → String
  equalFold : String → String → Bool
  sha256Base64 : List Nat → String

/-! ## Association lists (Go maps)

Go maps are modelled as association lists.  Everything the code builds
keeps keys unique (a Go map cannot hold a duplicate key); `setA` is Go's
`m[k] = v` (update if present, insert otherwise) and `mapValA` applies a
function to the value stored at a key. -/

def lookupA {α : Type} : List (String × α) → String → Option α
  | [], _ => none
  | (k', v) :: rest, k => if k' = k then some v else lookupA rest k

def setA {α : Type} (l : List (String × α)) (k : String) (v : α) : List (String × α) :=
  if (lookupA l k).isSome then l.map (fun p => if p.1 = k then (k, v) else p)
  else l ++ [(k, v)]

def mapValA {α : Type} (l : List (String × α)) (k : String) (f : α → α) : List (String × α) :=
  l.map (fun p => if p.1 = k then (p.1, f p.2) else p)

/-! ## CertSummary and the compliance evaluator -/

def VALID_PERIOD_TOO_LONG : String := "ValidPeriodTooLong"
def DEPRECATED_SIGNATURE_ALGORITHM : String := "DeprecatedSignatureAlgorithm"
def DEPRECATED_VERSION : String := "DeprecatedVersion"
def MISSING_CN_IN_SAN : String := "MissingCNInSan"
def KEY_TOO_SHORT : String := "KeyTooShort"
def EXP_TOO_SMALL : String := "ExpTooSmall"

structure CertSummary where
  CN : String
  Issuer : String
  Sha256Fingerprint : String
  NotBefore : String
  NotAfter : String
  KeySize : Int
  Exp : Int
  SignatureAlgorithm : Nat
  Version : Nat
  IsCA : Bool
  DnsNames : List String
  IpAddresses : List String
  Violations : List (String × Bool)
  MaxReputation : Rat
  IssuerInMozillaDB : Bool
  Timestamp : Nat
  deriving DecidableEq

def CertSummary.ViolatesBR (summary : CertSummary) : Bool :=
  summary.Violations.any (fun p => p.2)

/-- Short month name, as Go's `Jan 2 2006` time layout prints it. -/
def monthName : Nat → String
  | 1 => "Jan"
  | 2 => "Feb"
  | 3 => "Mar"
  | 4 => "Apr"
  | 5 => "May"
  | 6 => "Jun"
  | 7 => "Jul"
  | 8 => "Aug"
  | 9 => "Sep"
  | 10 => "Oct"
  | 11 => "Nov"
  | _ => "Dec"

/-- `TimeToJSONString` from `sunlight.go`: formats an epoch second with
layout `Jan 2 2006` (x509 validity times are UTC). -/
def TimeToJSONString (s : Int) : String :=
  let ymd := civilYMD (s / 86400)
  monthName ymd.2.1 ++ " " ++ toString ymd.2.2 ++ " " ++ toString ymd.1

/-- Go `t.AddDate(5, 0, 7)` on an epoch second (UTC): 5 calendar years and
7 days, normalized by `time.Date`'s linear day arithmetic. -/
def addDate5y7d (s : Int) : Int :=
  let z := s / 86400
  let tod := s % 86400
  let ymd := civilYMD z
  daysFromCivil (ymd.1 + 5) ymd.2.1 (ymd.2.2 + 7) * 86400 + tod

/-- `containsIssuerInRootList` from `sunlight.go`.  The root-CA map is a
total boolean function (a missing Go map key reads as the zero value
`false`). -/
def containsIssuerInRootList (certChain : List Cert) (rootCAMap : String → Bool) : Bool :=
  certChain.any (fun cert => rootCAMap (DistinguishedNameToString cert.Issuer))

/-- Go's condition for the `ValidPeriodTooLong` rule:
`cert.NotAfter.After(cert.NotBefore.AddDate(5, 0, 7)) &&
(!cert.BasicConstraintsValid || (cert.BasicConstraintsValid && !cert.IsCA))`. -/
def tooLongCond (cert : Cert) : Bool :=
  decide (addDate5y7d cert.NotBefore < cert.NotAfter) &&
    (!cert.BasicConstraintsValid || (cert.BasicConstraintsValid && !cert.IsCA))

/-- Go's condition for the `DeprecatedSignatureAlgorithm` rule. -/
def sha1Cond (cert : Cert) : Bool :=
  decide (cert.SignatureAlgorithm = SHA1WithRSA) ||
    decide (cert.SignatureAlgorithm = DSAWithSHA1) ||
    decide (cert.SignatureAlgorithm = ECDSAWithSHA1)

/-- The `summary.Violations` map literal of `CalculateCertSummary`
followed by the first two in-place updates (`ValidPeriodTooLong`,
`DeprecatedSignatureAlgorithm`). -/
def initialViolations (cert : Cert) : List (String × Bool) :=
  let violations : List (String × Bool) :=
    [(VALID_PERIOD_TOO_LONG, false),
     (DEPRECATED_SIGNATURE_ALGORITHM, false),
     (DEPRECATED_VERSION, decide (cert.Version ≠ 3)),
     (KEY_TOO_SHORT, false),
     (EXP_TOO_SMALL, false),
     (MISSING_CN_IN_SAN, false)]
  -- BR 9.4.1: Validity period is longer than 5 years, restricted to certs
  -- that don't have CA:True
  let violations := if tooLongCond cert then setA violations VALID_PERIOD_TOO_LONG true
    else violations
  -- SignatureAlgorithm is SHA1
  if sha1Cond cert then setA violations DEPRECATED_SIGNATURE_ALGORITHM true
  else violations

/-- The RSA key-size/exponent block of `CalculateCertSummary`:
`parsedKey, ok := cert.PublicKey.(*rsa.PublicKey)` followed by the
`KeyTooShort` / `ExpTooSmall` checks.  Returns the `KeySize` and `Exp`
fields (sentinel `-1` for non-RSA keys) together with the updated
violations map. -/
def rsaAdjust (cert : Cert) (violations : List (String × Bool)) :
    Int × Int × List (String × Bool) :=
  match cert.PublicKey with
  | .rsa modulus exponent =>
    let keySize : Int := goBitLen modulus
    let violations := if keySize ≤ 1024 then setA violations KEY_TOO_SHORT true else violations
    let violations := if exponent ≤ 3 then setA violations EXP_TOO_SMALL true else violations
    (keySize, exponent, violations)
  | .other => (-1, -1, violations)

/-- The trailing common-name / subject-alternative-name section of
`CalculateCertSummary`, acting on `summary.Violations`.  The source's
early `return`s (empty common name; `idna.ToASCII` error) leave the map
untouched; after a successful conversion the `MissingCNInSan` rule is set
to violated and then cleared if the common name is found among the IP
(when it parses as an IP literal) or DNS subject-alternative-names. -/
def cnSanAdjust (cert : Cert) (ext : Ext) (violations : List (String × Bool)) :
    List (String × Bool) :=
  -- Assume a 0-length CN means it isn't present.  If the CN is missing,
  -- then it can't be missing CN in SAN.
  if cert.Subject.CommonName.length = 0 then violations
  else
    match ext.idnaToASCII cert.Subject.CommonName with
    | none => violations
    | some cnAsPunycode =>
      -- BR 9.2.2: Found Common Name in Subject Alt Names, either as an IP
      -- or a DNS name.
      let v2 := setA violations MISSING_CN_IN_SAN true
      match ext.parseIP cert.Subject.CommonName with
      | some cnAsIP =>
        if cert.IPAddresses.any (fun ip => ext.ipEqual cnAsIP ip) then
          setA v2 MISSING_CN_IN_SAN false
        else v2
      | none =>
        if cert.DNSNames.any (fun san => ext.equalFold san cnAsPunycode) then
          setA v2 MISSING_CN_IN_SAN false
        else v2

/-- `CalculateCertSummary` from `sunlight.go`.  The ranker argument models
`*alexa.AlexaRank` (`none` is Go's `nil`); when present it is the
`GetReputation` lookup, returning `-1` for names it does not know.  The
function never returns a Go error (`err` is only ever `nil` at `return`),
so the model returns the summary directly; the source's early returns
affect only which `Violations` mutations run, which `cnSanAdjust`
reproduces. -/
def CalculateCertSummary (cert : Cert) (timestamp : Nat)
    (ranker : Option (String → Rat)) (ext : Ext)
    (certChain : List Cert) (rootCAMap : String → Bool) : CertSummary :=
  let violations : List (String × Bool) := initialViolations cert
  -- Public key length <= 1024 bits
  let ke : Int × Int × List (String × Bool) := rsaAdjust cert violations
  let violations := ke.2.2
  let maxReputation : Rat :=
    match ranker with
    | none => 0
    | some rank =>
      cert.DNSNames.foldl
        (fun acc host => let rep := rank host; if acc < rep then rep else acc)
        (rank cert.Subject.CommonName)
  { Timestamp := timestamp
    CN := cert.Subject.CommonName
    Issuer := DistinguishedNameToString cert.Issuer
    NotBefore := TimeToJSONString cert.NotBefore
    NotAfter := TimeToJSONString cert.NotAfter
    IsCA := cert.IsCA
    Version := cert.Version
    SignatureAlgorithm := cert.SignatureAlgorithm
    Violations := cnSanAdjust cert ext violations
    KeySize := ke.1
    Exp := ke.2.1
    MaxReputation := maxReputation
    Sha256Fingerprint := ext.sha256Base64 cert.Raw
    DnsNames := cert.DNSNames
    IpAddresses := cert.IPAddresses.map ext.ipToString
    IssuerInMozillaDB := containsIssuerInRootList certChain rootCAMap }

/-! ## Issuer reputation -/

structure IssuerReputationScore where
  NormalizedScore : F
  RawScore : F
  deriving DecidableEq

def IssuerReputationScore.update (score : IssuerReputationScore)
    (reputation : Rat) : IssuerReputationScore :=
  { NormalizedScore := score.NormalizedScore.add (F.fin reputation)
    RawScore := score.RawScore.add (F.fin 1) }

def IssuerReputationScore.finish (score : IssuerReputationScore)
    (normalizedCount rawCount : Nat) : IssuerReputationScore :=
  let ns := score.NormalizedScore.div (F.fin (normalizedCount : Rat))
  -- We want low scores to be bad and high scores to be good
  let ns := (F.fin 1).sub ns
  let rs := score.RawScore.div (F.fin (rawCount : Rat))
  let rs := (F.fin 1).sub rs
  { NormalizedScore := ns, RawScore := rs }

structure IssuerReputation where
  Issuer : String
  IssuerInMozillaDB : Bool
  Scores : List (String × IssuerReputationScore)
  IsCA : Nat
  NormalizedScore : F
  RawScore : F
  NormalizedCount : Nat
  RawCount : Nat
  BeginTime : Nat
  done : Bool
  deriving DecidableEq

/-- `NewIssuerReputation` from `sunlight.go` (unassigned Go struct fields
take their zero values). -/
def NewIssuerReputation (issuer : PkixName) (timestamp : Nat) : IssuerReputation where
  BeginTime := TruncateMonth timestamp
  Issuer := DistinguishedNameToString issuer
  Scores := []
  IssuerInMozillaDB := false
  IsCA := 0
  NormalizedScore := F.fin 0
  RawScore := F.fin 0
  NormalizedCount := 0
  RawCount := 0
  done := false

/-- One iteration of the `for name, val := range summary.Violations` loop
in `IssuerReputation.Update`: create the rule's score entry if absent, and
add to it if the rule is violated. -/
def updateRule (scores : List (String × IssuerReputationScore)) (reputation : Rat)
    (nv : String × Bool) : List (String × IssuerReputationScore) :=
  let scores :=
    if (lookupA scores nv.1).isSome then scores
    else scores ++ [(nv.1, ⟨F.fin 0, F.fin 0⟩)]
  if nv.2 then mapValA scores nv.1 (fun sc => sc.update reputation) else scores

/-- `IssuerReputation.Update` from `sunlight.go`. -/
def IssuerReputation.update (issuer : IssuerReputation) (summary : CertSummary) :
    IssuerReputation :=
  let issuer := { issuer with
    RawCount := issuer.RawCount + 1
    IssuerInMozillaDB := summary.IssuerInMozillaDB }
  let rep0 := summary.MaxReputation
  -- Keep track of certs issued for domains in Alexa
  let issuer := if rep0 ≠ -1 then { issuer with NormalizedCount := issuer.NormalizedCount + 1 }
    else issuer
  let reputation := if rep0 ≠ -1 then rep0 else 0
  let issuer := { issuer with
    Scores := summary.Violations.foldl (fun sc nv => updateRule sc reputation nv) issuer.Scores }
  if summary.IsCA then { issuer with IsCA := issuer.IsCA + 1 } else issuer

/-- `IssuerReputation.Finish` from `sunlight.go`.  Note: it neither reads
nor writes the `done` field. -/
def IssuerReputation.finish (issuer : IssuerReputation) : IssuerReputation :=
  let finished := issuer.Scores.map
    (fun p => (p.1, p.2.finish issuer.NormalizedCount issuer.RawCount))
  let normalizedSum := finished.foldl (fun acc p => acc.add p.2.NormalizedScore) (F.fin 0)
  let rawSum := finished.foldl (fun acc p => acc.add p.2.RawScore) (F.fin 0)
  { issuer with
    Scores := finished
    NormalizedScore := normalizedSum.div (F.fin (finished.length : Rat))
    RawScore := rawSum.div (F.fin (finished.length : Rat)) }

/-- A bucket built from a stream of summaries, as the driver does: created
by `NewIssuerReputation` and fed every summary via `Update`. -/
def buildBucket (issuer : PkixName) (timestamp : Nat) (l : List CertSummary) :
    IssuerReputation :=
  l.foldl IssuerReputation.update (NewIssuerReputation issuer timestamp)

/-! ## Association-list lemmas -/

theorem lookupA_nil {α : Type} (k : String) : lookupA ([] : List (String × α)) k = none := rfl

theorem lookupA_cons {α : Type} (k' : String) (v : α) (rest : List (String × α)) (k : String) :
    lookupA ((k', v) :: rest) k = if k' = k then some v else lookupA rest k := rfl

theorem lookupA_map_set {α : Type} (l : List (String × α)) (k : String) (v : α) :
    lookupA (l.map fun p => if p.1 = k then (k, v) else p) k =
      (lookupA l k).map (fun _ => v) := by
  induction l with
  | nil => rfl
  | cons p rest ih =>
    rcases p with ⟨k1, v1⟩
    by_cases h : k1 = k
    · subst h
      simp [lookupA_cons, ih]
    · simp [lookupA_cons, h, ih]

theorem lookupA_map_set_ne {α : Type} (l : List (String × α)) (k : String) (v : α)
    (k' : String) (h : k ≠ k') :
    lookupA (l.map fun p => if p.1 = k then (k, v) else p) k' = lookupA l k' := by
  induction l with
  | nil => rfl
  | cons p rest ih =>
    by_cases hp : p.1 = k
    · rcases p with ⟨k1, v1⟩
      simp only at hp
      subst hp
      simp [lookupA_cons, h, ih, if_neg h]
    · rcases p with ⟨k1, v1⟩
      simp only at hp
      simp only [List.map_cons, if_neg hp]
      simp [lookupA_cons, ih]

theorem lookupA_append {α : Type} (l1 l2 : List (String × α)) (k : String) :
    lookupA (l1 ++ l2) k =
      match lookupA l1 k with
      | some v => some v
      | none => lookupA l2 k := by
  induction l1 with
  | nil => simp [lookupA]
  | cons p rest ih =>
    rcases p with ⟨k1, v1⟩
    by_cases h : k1 = k
    · simp [lookupA_cons, h]
    · simp [lookupA_cons, h, ih]

theorem lookupA_setA_same {α : Type} (l : List (String × α)) (k : String) (v : α) :
    lookupA (setA l k v) k = some v := by
  unfold setA
  split
  · rename_i h
    rw [lookupA_map_set]
    rcases hl : lookupA l k with _ | w
    · rw [hl] at h; simp at h
    · simp
  · rw [lookupA_append]
    rename_i h
    rcases hl : lookupA l k with _ | w
    · simp [lookupA_cons]
    · rw [hl] at h; simp at h

theorem lookupA_setA_ne {α : Type} (l : List (String × α)) (k : String) (v : α)
    (k' : String) (h : k ≠ k') :
    lookupA (setA l k v) k' = lookupA l k' := by
  unfold setA
  split
  · exact lookupA_map_set_ne l k v k' h
  · rw [lookupA_append]
    rcases hl : lookupA l k' with _ | w
    · simp [lookupA_cons, h, lookupA_nil]
    · simp

theorem lookupA_mapValA_same {α : Type} (l : List (String × α)) (k : String) (f : α → α) :
    lookupA (mapValA l k f) k = (lookupA l k).map f := by
  unfold mapValA
  induction l with
  | nil => rfl
  | cons p rest ih =>
    rcases p with ⟨k1, v1⟩
    by_cases h : k1 = k
    · simp [lookupA_cons, h]
    · simp [lookupA_cons, h, ih]

theorem lookupA_mapValA_ne {α : Type} (l : List (String × α)) (k : String) (f : α → α)
    (k' : String) (h : k ≠ k') :
    lookupA (mapValA l k f) k' = lookupA l k' := by
  unfold mapValA
  induction l with
  | nil => rfl
  | cons p rest ih =>
    rcases p with ⟨k1, v1⟩
    by_cases hp : k1 = k
    · subst hp
      simp [lookupA_cons, h, ih]
    · simp [lookupA_cons, hp, ih]

/-! ## Evaluator lookup lemmas -/

theorem initialViolations_vptl (cert : Cert) :
    lookupA (initialViolations cert) VALID_PERIOD_TOO_LONG = some (tooLongCond cert) := by
  unfold initialViolations
  split <;> split <;>
    simp [lookupA_setA_same, lookupA_setA_ne, lookupA_cons, lookupA_nil,
      VALID_PERIOD_TOO_LONG, DEPRECATED_SIGNATURE_ALGORITHM, DEPRECATED_VERSION,
      KEY_TOO_SHORT, EXP_TOO_SMALL, MISSING_CN_IN_SAN] <;>
    simp_all

theorem initialViolations_sha1 (cert : Cert) :
    lookupA (initialViolations cert) DEPRECATED_SIGNATURE_ALGORITHM = some (sha1Cond cert) := by
  unfold initialViolations
  split <;> split <;>
    simp [lookupA_setA_same, lookupA_setA_ne, lookupA_cons, lookupA_nil,
      VALID_PERIOD_TOO_LONG, DEPRECATED_SIGNATURE_ALGORITHM, DEPRECATED_VERSION,
      KEY_TOO_SHORT, EXP_TOO_SMALL, MISSING_CN_IN_SAN] <;>
    simp_all

theorem initialViolations_other (cert : Cert) (r : String)
    (h1 : r ≠ VALID_PERIOD_TOO_LONG) (h2 : r ≠ DEPRECATED_SIGNATURE_ALGORITHM) :
    lookupA (initialViolations cert) r =
      lookupA [(VALID_PERIOD_TOO_LONG, false),
        (DEPRECATED_SIGNATURE_ALGORITHM, false),
        (DEPRECATED_VERSION, decide (cert.Version ≠ 3)),
        (KEY_TOO_SHORT, false),
        (EXP_TOO_SMALL, false),
        (MISSING_CN_IN_SAN, false)] r := by
  unfold initialViolations
  split <;> split <;>
    simp only [lookupA_setA_ne _ _ _ _ (Ne.symm h1), lookupA_setA_ne _ _ _ _ (Ne.symm h2)]

theorem rsaAdjust_lookup_ne (cert : Cert) (v : List (String × Bool)) (r : String)
    (h1 : r ≠ KEY_TOO_SHORT) (h2 : r ≠ EXP_TOO_SMALL) :
    lookupA (rsaAdjust cert v).2.2 r = lookupA v r := by
  unfold rsaAdjust
  rcases cert.PublicKey with ⟨modulus, exponent⟩ | _
  · simp only
    split <;> split <;>
      simp only [lookupA_setA_ne _ _ _ _ (Ne.symm h1), lookupA_setA_ne _ _ _ _ (Ne.symm h2)]
  · rfl

theorem cnSanAdjust_lookup_ne (cert : Cert) (ext : Ext) (v : List (String × Bool))
    (r : String) (h : r ≠ MISSING_CN_IN_SAN) :
    lookupA (cnSanAdjust cert ext v) r = lookupA v r := by
  unfold cnSanAdjust
  split
  · rfl
  rcases ext.idnaToASCII cert.Subject.CommonName with _ | cn
  · rfl
  simp only
  rcases ext.parseIP cert.Subject.CommonName with _ | ip <;>
    simp only <;>
    split <;>
      simp only [lookupA_setA_ne _ _ _ _ (Ne.symm h)]

/-- The `Violations` field of a computed summary is the three-stage
adjustment of the initial map. -/
theorem summary_violations (cert : Cert) (timestamp : Nat)
    (ranker : Option (String → Rat)) (ext : Ext)
    (certChain : List Cert) (rootCAMap : String → Bool) :
    (CalculateCertSummary cert timestamp ranker ext certChain rootCAMap).Violations =
      cnSanAdjust cert ext (rsaAdjust cert (initialViolations cert)).2.2 := rfl

/-! ## Aggregator lemmas -/

/-- The effective reputation weight contributed by a summary in
`IssuerReputation.Update` (the sentinel `-1` contributes `0`). -/
def effRep (s : CertSummary) : Rat :=
  if s.MaxReputation ≠ -1 then s.MaxReputation else 0

theorem update_rawCount (b : IssuerReputation) (s : CertSummary) :
    (b.update s).RawCount = b.RawCount + 1 := by
  simp only [IssuerReputation.update]
  split <;> split <;> rfl

theorem update_normalizedCount (b : IssuerReputation) (s : CertSummary) :
    (b.update s).NormalizedCount =
      b.NormalizedCount + (if s.MaxReputation ≠ -1 then 1 else 0) := by
  simp only [IssuerReputation.update]
  split <;> split <;> simp_all

theorem update_scores (b : IssuerReputation) (s : CertSummary) :
    (b.update s).Scores =
      s.Violations.foldl (fun sc nv => updateRule sc (effRep s) nv) b.Scores := by
  simp only [IssuerReputation.update, effRep]
  split <;> split <;> simp_all

theorem update_done (b : IssuerReputation) (s : CertSummary) :
    (b.update s).done = b.done := by
  simp only [IssuerReputation.update]
  split <;> split <;> rfl

theorem finish_done (b : IssuerReputation) : b.finish.done = b.done := rfl

/-- `updateRule` at a different key leaves the lookup unchanged. -/
theorem updateRule_lookup_ne (sc : List (String × IssuerReputationScore)) (rep : Rat)
    (nv : String × Bool) (name : String) (h : nv.1 ≠ name) :
    lookupA (updateRule sc rep nv) name = lookupA sc name := by
  have hins : ∀ l : List (String × IssuerReputationScore),
      lookupA (l ++ [(nv.1, ⟨F.fin 0, F.fin 0⟩)]) name = lookupA l name := by
    intro l
    rw [lookupA_append]
    rcases hl : lookupA l name with _ | w
    · simp [lookupA_cons, h, lookupA_nil]
    · simp
  simp only [updateRule]
  by_cases hv : nv.2 = true
  · rw [if_pos hv]
    by_cases hpre : (lookupA sc nv.1).isSome = true
    · rw [if_pos hpre, lookupA_mapValA_ne _ _ _ _ h]
    · rw [if_neg hpre, lookupA_mapValA_ne _ _ _ _ h, hins]
  · rw [if_neg hv]
    by_cases hpre : (lookupA sc nv.1).isSome = true
    · rw [if_pos hpre]
    · rw [if_neg hpre, hins]

/-- `updateRule` at its own key: the entry is created if missing and
bumped if the rule is violated. -/
theorem updateRule_lookup_same (sc : List (String × IssuerReputationScore)) (rep : Rat)
    (nv : String × Bool) :
    lookupA (updateRule sc rep nv) nv.1 =
      some (if nv.2 then ((lookupA sc nv.1).getD ⟨F.fin 0, F.fin 0⟩).update rep
        else (lookupA sc nv.1).getD ⟨F.fin 0, F.fin 0⟩) := by
  have hins : lookupA (sc ++ [(nv.1, ⟨F.fin 0, F.fin 0⟩)]) nv.1 =
      some ((lookupA sc nv.1).getD ⟨F.fin 0, F.fin 0⟩) := by
    rw [lookupA_append]
    rcases hl : lookupA sc nv.1 with _ | w
    · simp [lookupA_cons, lookupA_nil]
    · simp
  simp only [updateRule]
  by_cases hv : nv.2 = true
  · simp only [if_pos hv]
    by_cases hpre : (lookupA sc nv.1).isSome = true
    · rw [if_pos hpre, lookupA_mapValA_same]
      obtain ⟨w, hw⟩ := Option.isSome_iff_exists.mp hpre
      rw [hw]
      rfl
    · rw [if_neg hpre, lookupA_mapValA_same, hins,
        Option.not_isSome_iff_eq_none.mp hpre]
      rfl
  · simp only [if_neg hv]
    by_cases hpre : (lookupA sc nv.1).isSome = true
    · rw [if_pos hpre]
      obtain ⟨w, hw⟩ := Option.isSome_iff_exists.mp hpre
      rw [hw]
      rfl
    · rw [if_neg hpre, hins]

/-- Folding the per-rule loop over keys that do not include `name` leaves
the lookup at `name` unchanged. -/
theorem fold_updateRule_lookup_notmem (vl : List (String × Bool))
    (sc : List (String × IssuerReputationScore)) (rep : Rat) (name : String)
    (h : name ∉ vl.map Prod.fst) :
    lookupA (vl.foldl (fun sc nv => updateRule sc rep nv) sc) name = lookupA sc name := by
  induction vl generalizing sc with
  | nil => rfl
  | cons nv rest ih =>
    simp only [List.map_cons, List.mem_cons, not_or] at h
    simp only [List.foldl_cons]
    rw [ih _ h.2, updateRule_lookup_ne _ _ _ _ (Ne.symm h.1)]

/-- Entry existence after the per-rule loop: an entry exists afterwards
iff it existed before or its key occurs in the violations list. -/
theorem fold_updateRule_isSome (vl : List (String × Bool))
    (sc : List (String × IssuerReputationScore)) (rep : Rat) (name : String) :
    (lookupA (vl.foldl (fun sc nv => updateRule sc rep nv) sc) name).isSome =
      ((lookupA sc name).isSome || decide (name ∈ vl.map Prod.fst)) := by
  induction vl generalizing sc with
  | nil => simp
  | cons nv rest ih =>
    simp only [List.foldl_cons]
    rw [ih]
    by_cases h : nv.1 = name
    · subst h
      rw [updateRule_lookup_same]
      simp
    · rw [updateRule_lookup_ne _ _ _ _ h]
      simp [List.map_cons, List.mem_cons, Ne.symm h]

/-- Lookup after the whole per-rule loop, for a rule violated by the
summary (duplicate-free keys, as in any Go map). -/
theorem fold_updateRule_lookup_violated (vl : List (String × Bool))
    (sc : List (String × IssuerReputationScore)) (rep : Rat) (name : String)
    (hnd : (vl.map Prod.fst).Nodup) (hv : (name, true) ∈ vl) :
    lookupA (vl.foldl (fun sc nv => updateRule sc rep nv) sc) name =
      some (((lookupA sc name).getD ⟨F.fin 0, F.fin 0⟩).update rep) := by
  induction vl generalizing sc with
  | nil => simp at hv
  | cons nv rest ih =>
    simp only [List.map_cons, List.nodup_cons] at hnd
    simp only [List.foldl_cons]
    rcases List.mem_cons.mp hv with hv1 | hv1
    · subst hv1
      rw [fold_updateRule_lookup_notmem _ _ _ _ hnd.1]
      rw [updateRule_lookup_same]
      rfl
    · have hne : nv.1 ≠ name := by
        intro he
        exact hnd.1 (he ▸ (List.mem_map.mpr ⟨(name, true), hv1, rfl⟩))
      rw [ih _ hnd.2 hv1, updateRule_lookup_ne _ _ _ _ hne]

/-- Entry existence in a built bucket: an entry for a rule exists iff some
summary fed to `Update` mentioned that rule among its violation keys. -/
theorem buildBucket_isSome (issuer : PkixName) (timestamp : Nat)
    (l : List CertSummary) (name : String) :
    (lookupA (buildBucket issuer timestamp l).Scores name).isSome =
      decide (∃ s ∈ l, name ∈ s.Violations.map Prod.fst) := by
  suffices h : ∀ (b : IssuerReputation),
      (lookupA (l.foldl IssuerReputation.update b).Scores name).isSome =
        ((lookupA b.Scores name).isSome || decide (∃ s ∈ l, name ∈ s.Violations.map Prod.fst)) by
    rw [buildBucket, h]
    simp [NewIssuerReputation, lookupA_nil]
  induction l with
  | nil => simp
  | cons s rest ih =>
    intro b
    simp only [List.foldl_cons]
    rw [ih]
    rw [update_scores, fold_updateRule_isSome]
    have hiff : (∃ s' ∈ s :: rest, name ∈ s'.Violations.map Prod.fst) ↔
        (name ∈ s.Violations.map Prod.fst ∨
          ∃ s' ∈ rest, name ∈ s'.Violations.map Prod.fst) := by
      constructor
      · rintro ⟨s', hs', hm⟩
        rcases List.mem_cons.mp hs' with h | h
        · exact Or.inl (h ▸ hm)
        · exact Or.inr ⟨s', h, hm⟩
      · rintro (h | ⟨s', hs', hm⟩)
        · exact ⟨s, List.mem_cons_self s rest, h⟩
        · exact ⟨s', List.mem_cons_of_mem s hs', hm⟩
    simp only [hiff]
    by_cases h2 : name ∈ s.Violations.map Prod.fst <;>
      by_cases h3 : (∃ s' ∈ rest, name ∈ s'.Violations.map Prod.fst) <;>
        simp [h2, h3]

/-- Finite-arithmetic bound on a score entry: both running sums are finite,
nonnegative, and bounded by the respective counts. -/
def ScoreBound (sc : IssuerReputationScore) (n r : Nat) : Prop :=
  ∃ a c : Rat, sc.NormalizedScore = F.fin a ∧ sc.RawScore = F.fin c ∧
    0 ≤ a ∧ a ≤ n ∧ 0 ≤ c ∧ c ≤ r

theorem ScoreBound.mono {sc : IssuerReputationScore} {n r n' r' : Nat}
    (h : ScoreBound sc n r) (hn : n ≤ n') (hr : r ≤ r') : ScoreBound sc n' r' := by
  obtain ⟨a, c, h1, h2, h3, h4, h5, h6⟩ := h
  exact ⟨a, c, h1, h2, h3, le_trans h4 (by exact_mod_cast Nat.cast_le.mpr hn),
    h5, le_trans h6 (by exact_mod_cast Nat.cast_le.mpr hr)⟩

/-- A valid `CertSummary` record fed to the aggregator: its violations map
has unique keys (it is a Go map) and its popularity score is either the
`-1` sentinel or a true score in `[0, 1]`. -/
def ValidSummary (s : CertSummary) : Prop :=
  (s.Violations.map Prod.fst).Nodup ∧
    (s.MaxReputation = -1 ∨ (0 ≤ s.MaxReputation ∧ s.MaxReputation ≤ 1))

/-- The per-rule loop of a single `Update` call preserves the score
bounds, relative to the updated counts. -/
theorem fold_updateRule_bound (rep : Rat) (n0 r0 n1 r1 : Nat)
    (hrep0 : 0 ≤ rep) (hrepn : (n0 : Rat) + rep ≤ n1) (hn : n0 ≤ n1) (hr : r0 + 1 ≤ r1) :
    ∀ (vl : List (String × Bool)) (sc : List (String × IssuerReputationScore)),
      (vl.map Prod.fst).Nodup →
      (∀ p ∈ sc, (p.1 ∈ vl.map Prod.fst → ScoreBound p.2 n0 r0) ∧ ScoreBound p.2 n1 r1) →
      ∀ p ∈ vl.foldl (fun sc nv => updateRule sc rep nv) sc, ScoreBound p.2 n1 r1 := by
  intro vl
  induction vl with
  | nil =>
    intro sc _ hsc p hp
    exact (hsc p hp).2
  | cons nv rest ih =>
    intro sc hnd hsc
    simp only [List.map_cons, List.nodup_cons] at hnd
    simp only [List.foldl_cons]
    apply ih _ hnd.2
    intro p hp
    -- membership in `updateRule sc rep nv`
    have hzero : ScoreBound ⟨F.fin 0, F.fin 0⟩ n0 r0 :=
      ⟨0, 0, rfl, rfl, le_refl 0, by positivity, le_refl 0, by positivity⟩
    have hins : ∀ q, q ∈ (if (lookupA sc nv.1).isSome then sc
        else sc ++ [(nv.1, (⟨F.fin 0, F.fin 0⟩ : IssuerReputationScore))]) →
        (q ∈ sc ∨ q = (nv.1, (⟨F.fin 0, F.fin 0⟩ : IssuerReputationScore))) := by
      intro q hq
      split at hq
      · exact Or.inl hq
      · rcases List.mem_append.mp hq with h | h
        · exact Or.inl h
        · simp at h
          right
          rcases q with ⟨q1, q2⟩
          simp_all
    have hstep : ∀ q, (q ∈ sc ∨ q = (nv.1, (⟨F.fin 0, F.fin 0⟩ : IssuerReputationScore))) →
        ((q.1 ∈ rest.map Prod.fst → ScoreBound q.2 n0 r0) ∧ ScoreBound q.2 n1 r1) := by
      intro q hq
      rcases hq with hq | hq
      · exact ⟨fun hm => (hsc q hq).1 (by simp [hm]), (hsc q hq).2⟩
      · subst hq
        exact ⟨fun _ => hzero, hzero.mono hn (by omega)⟩
    have hupd : ∀ (w : IssuerReputationScore), ScoreBound w n0 r0 →
        ScoreBound (w.update rep) n1 r1 := by
      intro w hw
      obtain ⟨a, c, h1, h2, h3, h4, h5, h6⟩ := hw
      refine ⟨a + rep, c + 1, ?_, ?_, by positivity, ?_, by positivity, ?_⟩
      · simp [IssuerReputationScore.update, h1, F.add]
      · simp [IssuerReputationScore.update, h2, F.add]
      · calc a + rep ≤ (n0 : Rat) + rep := by linarith
          _ ≤ (n1 : Rat) := hrepn
      · calc c + 1 ≤ (r0 : Rat) + 1 := by linarith
          _ ≤ (r1 : Rat) := by exact_mod_cast Nat.cast_le.mpr hr
    have hB0head : ∀ q : String × IssuerReputationScore, q ∈ sc → q.1 = nv.1 →
        ScoreBound q.2 n0 r0 := by
      intro q hq hq1
      exact (hsc q hq).1 (by simp [hq1])
    simp only [updateRule] at hp
    by_cases hv : nv.2 = true
    · rw [if_pos hv] at hp
      rcases List.mem_map.mp hp with ⟨q, hq, hpq⟩
      have hq' := hins q hq
      by_cases hq1 : q.1 = nv.1
      · rw [if_pos hq1] at hpq
        subst hpq
        refine ⟨?_, ?_⟩
        · intro hm
          exact absurd (by simpa [hq1] using hm) hnd.1
        · rcases hq' with hq' | hq'
          · exact hupd q.2 (hB0head q hq' hq1)
          · have hq2 : q.2 = (⟨F.fin 0, F.fin 0⟩ : IssuerReputationScore) := by
              rw [hq']
            exact hupd q.2 (hq2 ▸ hzero)
      · rw [if_neg hq1] at hpq
        subst hpq
        exact hstep q hq'
    · rw [if_neg hv] at hp
      exact hstep p (hins p hp)

theorem foldl_rawCount (l : List CertSummary) :
    ∀ b : IssuerReputation, (l.foldl IssuerReputation.update b).RawCount =
      b.RawCount + l.length := by
  induction l with
  | nil => intro b; rfl
  | cons s rest ih =>
    intro b
    simp only [List.foldl_cons, List.length_cons]
    rw [ih, update_rawCount]
    omega

theorem buildBucket_rawCount (issuer : PkixName) (timestamp : Nat) (l : List CertSummary) :
    (buildBucket issuer timestamp l).RawCount = l.length := by
  rw [buildBucket, foldl_rawCount]
  simp [NewIssuerReputation]

theorem foldl_normCount_mono (l : List CertSummary) :
    ∀ b : IssuerReputation, b.NormalizedCount ≤
      (l.foldl IssuerReputation.update b).NormalizedCount := by
  induction l with
  | nil => intro b; exact le_refl _
  | cons s rest ih =>
    intro b
    simp only [List.foldl_cons]
    refine le_trans ?_ (ih _)
    rw [update_normalizedCount]
    omega

theorem foldl_normCount_pos (l : List CertSummary)
    (hsome : ∃ s ∈ l, s.MaxReputation ≠ -1) :
    ∀ b : IssuerReputation, 1 ≤ (l.foldl IssuerReputation.update b).NormalizedCount := by
  induction l with
  | nil => simp at hsome
  | cons s rest ih =>
    intro b
    obtain ⟨s', hs', hrep⟩ := hsome
    rcases List.mem_cons.mp hs' with h | h
    · subst h
      simp only [List.foldl_cons]
      refine le_trans ?_ (foldl_normCount_mono rest _)
      rw [update_normalizedCount, if_pos hrep]
      omega
    · exact ih ⟨s', h, hrep⟩ _

/-- A single `Update` with a valid summary preserves the bucket invariant:
every score entry is bounded by the current counts. -/
theorem update_preserves_bound (b : IssuerReputation) (s : CertSummary)
    (hval : ValidSummary s)
    (hinv : ∀ p ∈ b.Scores, ScoreBound p.2 b.NormalizedCount b.RawCount) :
    ∀ p ∈ (b.update s).Scores,
      ScoreBound p.2 (b.update s).NormalizedCount (b.update s).RawCount := by
  intro p hp
  rw [update_scores] at hp
  rw [update_normalizedCount, update_rawCount]
  have hrep0 : 0 ≤ effRep s := by
    unfold effRep
    split
    · rename_i h
      rcases hval.2 with h2 | h2
      · exact absurd h2 h
      · exact h2.1
    · exact le_refl 0
  have hrepn : (b.NormalizedCount : Rat) + effRep s ≤
      (b.NormalizedCount + (if s.MaxReputation ≠ -1 then 1 else 0) : Nat) := by
    unfold effRep
    by_cases h : s.MaxReputation ≠ -1
    · rw [if_pos h, if_pos h]
      rcases hval.2 with h2 | h2
      · exact absurd h2 h
      · push_cast
        linarith [h2.2]
    · rw [if_neg h, if_neg h]
      simp
  refine fold_updateRule_bound (effRep s) b.NormalizedCount b.RawCount _ _
    hrep0 hrepn (by omega) (by omega) s.Violations b.Scores hval.1 ?_ p hp
  intro q hq
  exact ⟨fun _ => hinv q hq, (hinv q hq).mono (by omega) (by omega)⟩

/-- The bucket invariant holds for every bucket built from valid
summaries. -/
theorem buildBucket_bound (issuer : PkixName) (timestamp : Nat) (l : List CertSummary)
    (hval : ∀ s ∈ l, ValidSummary s) :
    ∀ p ∈ (buildBucket issuer timestamp l).Scores,
      ScoreBound p.2 (buildBucket issuer timestamp l).NormalizedCount
        (buildBucket issuer timestamp l).RawCount := by
  rw [buildBucket]
  have hgen : ∀ (l' : List CertSummary) (b : IssuerReputation),
      (∀ s ∈ l', ValidSummary s) →
      (∀ p ∈ b.Scores, ScoreBound p.2 b.NormalizedCount b.RawCount) →
      ∀ p ∈ (l'.foldl IssuerReputation.update b).Scores,
        ScoreBound p.2 (l'.foldl IssuerReputation.update b).NormalizedCount
          (l'.foldl IssuerReputation.update b).RawCount := by
    intro l'
    induction l' with
    | nil => intro b _ hinv; exact hinv
    | cons s rest ih =>
      intro b hval' hinv
      simp only [List.foldl_cons]
      refine ih _ (fun s' hs' => hval' s' (List.mem_cons_of_mem s hs')) ?_
      exact update_preserves_bound b s (hval' s (List.mem_cons_self s rest)) hinv
  refine hgen l _ hval ?_
  intro p hp
  simp [NewIssuerReputation] at hp

/-- After `Finish` on a bucket with at least one normalized observation
and at least one observation, every entry's scores are finite and lie in
`[0, 1]`. -/
theorem finish_entry_bounds (b : IssuerReputation)
    (hn : 1 ≤ b.NormalizedCount) (hr : 1 ≤ b.RawCount)
    (hinv : ∀ p ∈ b.Scores, ScoreBound p.2 b.NormalizedCount b.RawCount) :
    ∀ p ∈ b.finish.Scores, ∃ a c : Rat,
      p.2.NormalizedScore = F.fin a ∧ p.2.RawScore = F.fin c ∧
      0 ≤ a ∧ a ≤ 1 ∧ 0 ≤ c ∧ c ≤ 1 := by
  intro p hp
  simp only [IssuerReputation.finish] at hp
  rcases List.mem_map.mp hp with ⟨q, hq, hpq⟩
  obtain ⟨a, c, h1, h2, h3, h4, h5, h6⟩ := hinv q hq
  have hnQ : (0 : Rat) < (b.NormalizedCount : Rat) := by exact_mod_cast hn
  have hrQ : (0 : Rat) < (b.RawCount : Rat) := by exact_mod_cast hr
  refine ⟨1 - a / b.NormalizedCount, 1 - c / b.RawCount, ?_, ?_, ?_, ?_, ?_, ?_⟩
  · rw [← hpq]
    simp only [IssuerReputationScore.finish, h1, F.div, F.sub]
    rw [if_neg (by positivity)]
  · rw [← hpq]
    simp only [IssuerReputationScore.finish, h2, F.div, F.sub]
    rw [if_neg (by positivity)]
  · have : a / b.NormalizedCount ≤ 1 := (div_le_one hnQ).mpr h4
    linarith
  · have : 0 ≤ a / b.NormalizedCount := by positivity
    linarith
  · have : c / b.RawCount ≤ 1 := (div_le_one hrQ).mpr h6
    linarith
  · have : 0 ≤ c / b.RawCount := by positivity
    linarith

theorem rsaAdjust_kts (cert : Cert) (v : List (String × Bool)) (modulus : Nat) (exponent : Int)
    (hpk : cert.PublicKey = .rsa modulus exponent) :
    lookupA (rsaAdjust cert v).2.2 KEY_TOO_SHORT =
      if (goBitLen modulus : Int) ≤ 1024 then some true else lookupA v KEY_TOO_SHORT := by
  unfold rsaAdjust
  rw [hpk]
  simp only
  by_cases h : (goBitLen modulus : Int) ≤ 1024
  · rw [if_pos h, if_pos h]
    by_cases he : exponent ≤ 3
    · rw [if_pos he,
        lookupA_setA_ne _ _ _ _ (show EXP_TOO_SMALL ≠ KEY_TOO_SHORT by decide),
        lookupA_setA_same]
    · rw [if_neg he, lookupA_setA_same]
  · rw [if_neg h, if_neg h]
    by_cases he : exponent ≤ 3
    · rw [if_pos he,
        lookupA_setA_ne _ _ _ _ (show EXP_TOO_SMALL ≠ KEY_TOO_SHORT by decide)]
    · rw [if_neg he]

theorem rsaAdjust_of_other (cert : Cert) (v : List (String × Bool))
    (hpk : cert.PublicKey = .other) : rsaAdjust cert v = (-1, -1, v) := by
  unfold rsaAdjust
  rw [hpk]

/-- The `KeySize` field of a computed summary. -/
theorem summary_keySize (cert : Cert) (timestamp : Nat)
    (ranker : Option (String → Rat)) (ext : Ext)
    (certChain : List Cert) (rootCAMap : String → Bool) :
    (CalculateCertSummary cert timestamp ranker ext certChain rootCAMap).KeySize =
      (rsaAdjust cert (initialViolations cert)).1 := rfl

/-- `maybeAppendFieldToBuffer` only reads the first value of the field
(an absent first value behaves like an empty one). -/
theorem maybeAppend_headD (buffer : String) (field : List String) (pre : String) :
    maybeAppendFieldToBuffer buffer field pre =
      maybeAppendFieldToBuffer buffer [field.headD ""] pre := by
  unfold maybeAppendFieldToBuffer
  rcases field with _ | ⟨f, rest⟩
  · simp [String.length]
  · rfl

/-! ## Concrete fixtures used by witnesses and counterexamples -/

/-- A possible external environment: the IDNA conversion fails on every
name (in reality `idna.ToASCII` fails on, e.g., labels whose Punycode
encoding overflows), no name parses as an IP literal, and fingerprints are
irrelevant. -/
def extNone : Ext where
  idnaToASCII := fun _ => none
  parseIP := fun _ => none
  ipEqual := fun _ _ => false
  ipToString := fun _ => ""
  equalFold := fun a b => a == b
  sha256Base64 := fun _ => ""

def namePlain : PkixName :=
  ⟨[], [], [], [], [], [], [], "", "Honest Al"⟩

/-- A certificate whose common name makes the Punycode conversion fail
(under `extNone`). -/
def certPuny : Cert where
  Subject := ⟨[], [], [], [], [], [], [], "", "www.xn--invalid.com"⟩
  Issuer := ⟨[], ["Acme Co"], [], [], [], [], [], "", "Honest Al"⟩
  NotBefore := 0
  NotAfter := 86400
  BasicConstraintsValid := true
  IsCA := false
  Version := 3
  SignatureAlgorithm := 4
  PublicKey := .other
  DNSNames := ["www.example.com"]
  IPAddresses := []
  Raw := []

/-- `certPuny` with an RSA key whose modulus has bit-length 10. -/
def certRsa : Cert := { certPuny with PublicKey := .rsa 512 65537 }

/-- A summary with no violated rule (all six flags present and false). -/
def sNoViol : CertSummary where
  CN := "example.com"
  Issuer := "CN=Honest Al"
  Sha256Fingerprint := ""
  NotBefore := ""
  NotAfter := ""
  KeySize := -1
  Exp := -1
  SignatureAlgorithm := 0
  Version := 3
  IsCA := false
  DnsNames := []
  IpAddresses := []
  Violations :=
    [(VALID_PERIOD_TOO_LONG, false),
     (DEPRECATED_SIGNATURE_ALGORITHM, false),
     (DEPRECATED_VERSION, false),
     (KEY_TOO_SHORT, false),
     (EXP_TOO_SMALL, false),
     (MISSING_CN_IN_SAN, false)]
  MaxReputation := 1/10
  IssuerInMozillaDB := false
  Timestamp := 0

/-- A summary violating `ValidPeriodTooLong`, with popularity `1/10`. -/
def sOneViol : CertSummary := { sNoViol with
  Violations :=
    [(VALID_PERIOD_TOO_LONG, true),
     (DEPRECATED_SIGNATURE_ALGORITHM, false),
     (DEPRECATED_VERSION, false),
     (KEY_TOO_SHORT, false),
     (EXP_TOO_SMALL, false),
     (MISSING_CN_IN_SAN, false)] }

/-- `sOneViol` with the `-1` "not ranked" popularity sentinel. -/
def sUnknownViol : CertSummary := { sOneViol with MaxReputation := -1 }

/-! ## Claims -/

/-- C1 counterexample: for a certificate with a non-empty common name
whose Punycode conversion fails, the returned summary does NOT have the
`MissingCNInSan` flag set to true — the claim's "default violated state
kept" is false on the code (its map literal initializes the rule to
`false`, and the early return on conversion failure keeps that). -/
theorem c1_counterexample :
    ¬ lookupA (CalculateCertSummary certPuny 0 none extNone [] (fun _ => false)).Violations
        MISSING_CN_IN_SAN = some true := by
  decide

/-- C1 (amended): for every certificate with a non-empty common name whose
common name fails Punycode (IDNA ASCII) conversion, the `MissingCNInSan`
flag of the summary returned by `CalculateCertSummary` is `false` — the
initialization value is `false`, not `true`, and conversion failure
returns early, so the rule is treated as a pass, never as violated. -/
theorem c1_amended (cert : Cert) (timestamp : Nat) (ranker : Option (String → Rat))
    (ext : Ext) (certChain : List Cert) (rootCAMap : String → Bool)
    (hcn : ¬ cert.Subject.CommonName.length = 0)
    (hfail : ext.idnaToASCII cert.Subject.CommonName = none) :
    lookupA (CalculateCertSummary cert timestamp ranker ext certChain rootCAMap).Violations
      MISSING_CN_IN_SAN = some false := by
  rw [summary_violations]
  unfold cnSanAdjust
  rw [if_neg hcn, hfail]
  rw [rsaAdjust_lookup_ne _ _ _ (by decide) (by decide)]
  rw [initialViolations_other _ _ (by decide) (by decide)]
  simp [lookupA_cons, lookupA_nil, VALID_PERIOD_TOO_LONG,
    DEPRECATED_SIGNATURE_ALGORITHM, DEPRECATED_VERSION, KEY_TOO_SHORT,
    EXP_TOO_SMALL, MISSING_CN_IN_SAN]

/-- C1 witness: the amended theorem applied to the concrete failing
certificate. -/
theorem c1_witness :
    lookupA (CalculateCertSummary certPuny 0 none extNone [] (fun _ => false)).Violations
      MISSING_CN_IN_SAN = some false :=
  c1_amended certPuny 0 none extNone [] (fun _ => false) (by decide) rfl

/-- C2 counterexample: a bucket built from one summary that violates no
rule still has a `Scores` entry for `ValidPeriodTooLong` — entries are
created for every rule key seen, not lazily on first violation. -/
theorem c2_counterexample :
    (lookupA (buildBucket namePlain 0 [sNoViol]).Scores VALID_PERIOD_TOO_LONG).isSome = true ∧
      ¬ lookupA sNoViol.Violations VALID_PERIOD_TOO_LONG = some true := by
  with_unfolding_all decide

/-- C2 (amended): a rule has an entry in a bucket's `Scores` map iff at
least one summary passed to `Update` had that rule among the keys of its
violations map (whatever the flag's value: never-violated rules that
appear in a summary do get an entry with zero sums).  `Finish`'s
`NormalizedScore`/`RawScore` means are taken over exactly the rules that
have an entry: the sums range over the (finished) entries and the divisor
is the number of entries. -/
theorem c2_amended (issuer : PkixName) (timestamp : Nat) (l : List CertSummary)
    (name : String) :
    ((lookupA (buildBucket issuer timestamp l).Scores name).isSome ↔
      ∃ s ∈ l, name ∈ s.Violations.map Prod.fst) ∧
    (buildBucket issuer timestamp l).finish.NormalizedScore =
      (((buildBucket issuer timestamp l).finish.Scores.foldl
          (fun acc p => acc.add p.2.NormalizedScore) (F.fin 0)).div
        (F.fin ((buildBucket issuer timestamp l).finish.Scores.length : Rat))) ∧
    (buildBucket issuer timestamp l).finish.Scores.length =
      (buildBucket issuer timestamp l).Scores.length := by
  refine ⟨?_, ?_, ?_⟩
  · rw [buildBucket_isSome]
    exact decide_eq_true_iff
  · rfl
  · simp [IssuerReputation.finish]

/-- C3 counterexample: `Update` on a fresh bucket with a summary of
popularity `1/10` and one violated rule stores `RawScore = 1`, not the
popularity score `1/10`: the popularity weight is added only to
`NormalizedScore`, while `RawScore` counts `1` per violating
observation. -/
theorem c3_counterexample :
    lookupA ((NewIssuerReputation namePlain 0).update sOneViol).Scores
        VALID_PERIOD_TOO_LONG =
      some ⟨F.fin (1/10), F.fin 1⟩ ∧
    ¬ lookupA ((NewIssuerReputation namePlain 0).update sOneViol).Scores
        VALID_PERIOD_TOO_LONG =
      some ⟨F.fin (1/10), F.fin (1/10)⟩ := by
  constructor <;> with_unfolding_all decide

/-- C3 (amended): for every summary whose popularity score is not `-1` and
every rule violated in it, `Update` adds the popularity score to the
rule's `NormalizedScore` running sum and `1` (not the popularity score) to
its `RawScore` running sum: `RawScore` is a running count of violating
observations, not of contributed popularity weight. -/
theorem c3_amended (b : IssuerReputation) (s : CertSummary) (name : String)
    (hnd : (s.Violations.map Prod.fst).Nodup)
    (hrep : s.MaxReputation ≠ -1)
    (hv : (name, true) ∈ s.Violations) :
    lookupA (b.update s).Scores name =
      some ⟨((lookupA b.Scores name).getD ⟨F.fin 0, F.fin 0⟩).NormalizedScore.add
          (F.fin s.MaxReputation),
        ((lookupA b.Scores name).getD ⟨F.fin 0, F.fin 0⟩).RawScore.add (F.fin 1)⟩ := by
  rw [update_scores, fold_updateRule_lookup_violated _ _ _ _ hnd hv]
  unfold IssuerReputationScore.update effRep
  rw [if_pos hrep]

/-- C3 witness: the amended theorem at a concrete bucket and summary. -/
theorem c3_witness :
    lookupA ((NewIssuerReputation namePlain 0).update sOneViol).Scores
        VALID_PERIOD_TOO_LONG =
      some ⟨((lookupA (NewIssuerReputation namePlain 0).Scores VALID_PERIOD_TOO_LONG).getD
            ⟨F.fin 0, F.fin 0⟩).NormalizedScore.add (F.fin sOneViol.MaxReputation),
        ((lookupA (NewIssuerReputation namePlain 0).Scores VALID_PERIOD_TOO_LONG).getD
            ⟨F.fin 0, F.fin 0⟩).RawScore.add (F.fin 1)⟩ :=
  c3_amended (NewIssuerReputation namePlain 0) sOneViol VALID_PERIOD_TOO_LONG
    (by decide) (by with_unfolding_all decide) (by decide)

/-- C4 counterexample: a bucket built from one valid summary (popularity
`-1`, one violated rule) has, after `Finish`, a `ValidPeriodTooLong` entry
whose `NormalizedScore` is non-finite (Go: `0/0 = NaN`), hence not in
`[0, 1]` — the claim fails when no summary carries a known popularity. -/
theorem c4_counterexample :
    (∀ s ∈ [sUnknownViol], ValidSummary s) ∧
    lookupA (buildBucket namePlain 0 [sUnknownViol]).finish.Scores VALID_PERIOD_TOO_LONG =
      some ⟨F.nonfin, F.fin 0⟩ ∧
    ∀ a : Rat, F.nonfin ≠ F.fin a := by
  refine ⟨?_, by with_unfolding_all decide, ?_⟩
  · intro s hs
    rcases List.mem_cons.mp hs with h | h
    · subst h
      constructor
      · decide
      · left; with_unfolding_all rfl
    · simp at h
  · intro a h
    exact F.noConfusion h

/-- C4 (amended): for every bucket built by `Update` calls from valid
summaries (popularity in `[0, 1]` or the `-1` sentinel, duplicate-free
violation keys), provided at least one summary has a known popularity
(so `NormalizedCount ≥ 1`), after one `Finish` every rule entry has both
`RawScore` and `NormalizedScore` finite and in `[0, 1]`. -/
theorem c4_amended (issuer : PkixName) (timestamp : Nat) (l : List CertSummary)
    (hval : ∀ s ∈ l, ValidSummary s)
    (hsome : ∃ s ∈ l, s.MaxReputation ≠ -1) :
    ∀ p ∈ (buildBucket issuer timestamp l).finish.Scores, ∃ a c : Rat,
      p.2.NormalizedScore = F.fin a ∧ p.2.RawScore = F.fin c ∧
      0 ≤ a ∧ a ≤ 1 ∧ 0 ≤ c ∧ c ≤ 1 := by
  have hl : l ≠ [] := by
    rintro rfl
    simp at hsome
  refine finish_entry_bounds _ ?_ ?_ (buildBucket_bound issuer timestamp l hval)
  · exact foldl_normCount_pos l hsome _
  · rw [buildBucket_rawCount]
    exact List.length_pos.mpr hl

/-- C4 witness: the amended theorem applied to a one-summary bucket, at
its (concrete) finished `ValidPeriodTooLong` entry. -/
theorem c4_witness :
    ∃ a c : Rat,
      ((VALID_PERIOD_TOO_LONG,
          (⟨F.fin (9/10), F.fin 0⟩ : IssuerReputationScore)) :
        String × IssuerReputationScore).2.NormalizedScore = F.fin a ∧
      ((VALID_PERIOD_TOO_LONG,
          (⟨F.fin (9/10), F.fin 0⟩ : IssuerReputationScore)) :
        String × IssuerReputationScore).2.RawScore = F.fin c ∧
      0 ≤ a ∧ a ≤ 1 ∧ 0 ≤ c ∧ c ≤ 1 :=
  c4_amended namePlain 0 [sOneViol]
    (by
      intro s hs
      rcases List.mem_cons.mp hs with h | h
      · subst h
        exact ⟨by decide, Or.inr ⟨by norm_num [sOneViol, sNoViol], by norm_num [sOneViol, sNoViol]⟩⟩
      · simp at h)
    ⟨sOneViol, List.mem_cons_self _ _, by with_unfolding_all decide⟩
    (VALID_PERIOD_TOO_LONG, ⟨F.fin (9/10), F.fin 0⟩) (by with_unfolding_all decide)

/-- C5 counterexample: the one-shot guard does not exist in behaviour —
`Finish` leaves the `done` flag `false`, and a second `Finish` call
silently changes the already-finalized scores (re-dividing them), so
repeated finalization is neither detectable nor prevented. -/
theorem c5_counterexample :
    (buildBucket namePlain 0 [sOneViol]).finish.done = false ∧
    ¬ (buildBucket namePlain 0 [sOneViol]).finish.finish.Scores =
      (buildBucket namePlain 0 [sOneViol]).finish.Scores := by
  constructor <;> with_unfolding_all decide

/-- C5 (amended): the `IssuerReputation` struct carries a `done` guard
field, but the implementation never sets or checks it: `Finish` (and
`Update`) leave `done` exactly as it was, and a fresh bucket starts with
`done = false`, so single-finalization is left entirely to caller
discipline and a second `Finish` is not detectable. -/
theorem c5_amended (b : IssuerReputation) (s : CertSummary) (issuer : PkixName)
    (timestamp : Nat) :
    b.finish.done = b.done ∧ (b.update s).done = b.done ∧
      (NewIssuerReputation issuer timestamp).done = false :=
  ⟨finish_done b, update_done b s, rfl⟩

/-- C6 (confirmed): for every certificate, the `ValidPeriodTooLong` flag
in the summary returned by `CalculateCertSummary` is true iff `NotAfter`
is strictly later than `NotBefore` plus 5 calendar years plus 7 days AND
the certificate is not a CA certificate, where a certificate without a
valid basic-constraints extension counts as non-CA. -/
theorem c6_validPeriodTooLong (cert : Cert) (timestamp : Nat)
    (ranker : Option (String → Rat)) (ext : Ext)
    (certChain : List Cert) (rootCAMap : String → Bool) :
    lookupA (CalculateCertSummary cert timestamp ranker ext certChain rootCAMap).Violations
        VALID_PERIOD_TOO_LONG = some true ↔
      (addDate5y7d cert.NotBefore < cert.NotAfter ∧
        ¬ (cert.BasicConstraintsValid = true ∧ cert.IsCA = true)) := by
  rw [summary_violations,
    cnSanAdjust_lookup_ne _ _ _ _ (by decide),
    rsaAdjust_lookup_ne _ _ _ (by decide) (by decide),
    initialViolations_vptl]
  rw [Option.some_inj]
  unfold tooLongCond
  by_cases h1 : addDate5y7d cert.NotBefore < cert.NotAfter <;>
    by_cases h2 : cert.BasicConstraintsValid = true <;>
      by_cases h3 : cert.IsCA = true <;>
        simp [h1, h2, h3]

/-- C7 (confirmed): for every certificate with an RSA public key of
modulus bit-length at most 1024, the summary's `KeyTooShort` flag is true;
for an RSA key of bit-length greater than 1024 it is false; and for a
non-RSA key it is false and the summary's `KeySize` field is `-1`. -/
theorem c7_keyTooShort (cert : Cert) (timestamp : Nat)
    (ranker : Option (String → Rat)) (ext : Ext)
    (certChain : List Cert) (rootCAMap : String → Bool) :
    (∀ modulus exponent, cert.PublicKey = .rsa modulus exponent →
      ((goBitLen modulus ≤ 1024 →
        lookupA (CalculateCertSummary cert timestamp ranker ext certChain
          rootCAMap).Violations KEY_TOO_SHORT = some true) ∧
       (1024 < goBitLen modulus →
        lookupA (CalculateCertSummary cert timestamp ranker ext certChain
          rootCAMap).Violations KEY_TOO_SHORT = some false))) ∧
    (cert.PublicKey = .other →
      lookupA (CalculateCertSummary cert timestamp ranker ext certChain
        rootCAMap).Violations KEY_TOO_SHORT = some false ∧
      (CalculateCertSummary cert timestamp ranker ext certChain rootCAMap).KeySize = -1) := by
  have hlit : lookupA (initialViolations cert) KEY_TOO_SHORT = some false := by
    rw [initialViolations_other _ _ (by decide) (by decide)]
    simp [lookupA_cons, lookupA_nil, VALID_PERIOD_TOO_LONG,
      DEPRECATED_SIGNATURE_ALGORITHM, DEPRECATED_VERSION, KEY_TOO_SHORT,
      EXP_TOO_SMALL, MISSING_CN_IN_SAN]
  constructor
  · intro modulus exponent hpk
    have hkts := rsaAdjust_kts cert (initialViolations cert) modulus exponent hpk
    constructor
    · intro hsmall
      rw [summary_violations, cnSanAdjust_lookup_ne _ _ _ _ (by decide), hkts,
        if_pos (by exact_mod_cast hsmall)]
    · intro hbig
      rw [summary_violations, cnSanAdjust_lookup_ne _ _ _ _ (by decide), hkts,
        if_neg (by omega), hlit]
  · intro hpk
    constructor
    · rw [summary_violations, cnSanAdjust_lookup_ne _ _ _ _ (by decide),
        rsaAdjust_of_other cert _ hpk, hlit]
    · rw [summary_keySize, rsaAdjust_of_other cert _ hpk]

/-- C7 witness: the two concrete cases — a 512-bit RSA key triggers
`KeyTooShort`, and a non-RSA key yields `false` with `KeySize = -1`. -/
theorem c7_witness :
    lookupA (CalculateCertSummary certRsa 0 none extNone [] (fun _ => false)).Violations
        KEY_TOO_SHORT = some true ∧
    lookupA (CalculateCertSummary certPuny 0 none extNone [] (fun _ => false)).Violations
        KEY_TOO_SHORT = some false ∧
    (CalculateCertSummary certPuny 0 none extNone [] (fun _ => false)).KeySize = -1 := by
  refine ⟨?_, ?_, ?_⟩
  · exact ((c7_keyTooShort certRsa 0 none extNone [] (fun _ => false)).1
      512 65537 rfl).1 (by norm_num [goBitLen, Nat.log2])
  · exact ((c7_keyTooShort certPuny 0 none extNone [] (fun _ => false)).2 rfl).1
  · exact ((c7_keyTooShort certPuny 0 none extNone [] (fun _ => false)).2 rfl).2

set_option maxRecDepth 10000 in
/-- C8 counterexample: `TruncateMonth` is not idempotent on all of
`uint64`: at `t = 2^63` (interpreted by `int64(t)` as the most negative
instant), `uint64(truncated.Unix()) * 1000` overflows `int64`, and a
second application lands in a different month. -/
theorem c8_counterexample :
    TruncateMonth (TruncateMonth (2 ^ 63)) ≠ TruncateMonth (2 ^ 63) := by
  decide

/-- C8 (amended): `TruncateMonth` is idempotent at every timestamp whose
month start, converted to milliseconds, fits in `int64` — in particular at
every `t < 2^63`, hence every realistic epoch-milliseconds timestamp.  (The
claim as stated fails only where the final `uint64` multiplication
overflows `int64`; see the counterexample.) -/
theorem c8_truncateMonth_idempotent (t : Nat)
    (h1 : -(2 ^ 63) ≤ monthStartSec ((toInt64 t).tdiv 1000) * 1000)
    (h2 : monthStartSec ((toInt64 t).tdiv 1000) * 1000 < 2 ^ 63) :
    TruncateMonth (TruncateMonth t) = TruncateMonth t :=
  truncateMonth_idem_aux t h1 h2

/-- C8 witness: idempotence at the concrete timestamp
1600000000000 ms (2020-09-13 12:26:40 UTC). -/
theorem c8_witness :
    TruncateMonth (TruncateMonth 1600000000000) = TruncateMonth 1600000000000 :=
  c8_truncateMonth_idempotent 1600000000000 (by decide) (by decide)

/-- C9 (confirmed): with no popularity oracle (`nil` ranker), the summary's
`MaxReputation` is the Go zero value `0`, not the `-1` "not found"
sentinel; consequently `IssuerReputation.Update` counts every such summary
toward `NormalizedCount`, as if it had a known popularity ranking. -/
theorem c9_nilRanker (cert : Cert) (timestamp : Nat) (ext : Ext)
    (certChain : List Cert) (rootCAMap : String → Bool) (b : IssuerReputation) :
    (CalculateCertSummary cert timestamp none ext certChain rootCAMap).MaxReputation = 0 ∧
    (b.update (CalculateCertSummary cert timestamp none ext certChain
      rootCAMap)).NormalizedCount = b.NormalizedCount + 1 := by
  have h0 : (CalculateCertSummary cert timestamp none ext certChain
      rootCAMap).MaxReputation = 0 := rfl
  refine ⟨h0, ?_⟩
  rw [update_normalizedCount, h0]
  norm_num

/-- C10 (confirmed): two distinguished names agreeing on their first
Organization value, first OrganizationalUnit value, and CommonName are
formatted identically by `DistinguishedNameToString`, whatever their other
fields (Country, Locality, Province, StreetAddress, PostalCode,
SerialNumber, additional multi-values); hence no root-CA trust map can
distinguish them. -/
theorem c10_nameCollision (n1 n2 : PkixName)
    (ho : n1.Organization.headD "" = n2.Organization.headD "")
    (hou : n1.OrganizationalUnit.headD "" = n2.OrganizationalUnit.headD "")
    (hcn : n1.CommonName = n2.CommonName) :
    DistinguishedNameToString n1 = DistinguishedNameToString n2 ∧
    ∀ rootCAMap : String → Bool,
      rootCAMap (DistinguishedNameToString n1) =
        rootCAMap (DistinguishedNameToString n2) := by
  have heq : DistinguishedNameToString n1 = DistinguishedNameToString n2 := by
    simp only [DistinguishedNameToString]
    rw [maybeAppend_headD _ n1.Organization, maybeAppend_headD _ n2.Organization, ho]
    rw [maybeAppend_headD _ n1.OrganizationalUnit,
      maybeAppend_headD _ n2.OrganizationalUnit, hou]
    rw [hcn]
  exact ⟨heq, fun rootCAMap => by rw [heq]⟩

/-- C10 witness: two concrete names differing in Country, Locality,
SerialNumber and trailing multi-values, but with the same first
Organization, first OrganizationalUnit, and CommonName. -/
theorem c10_witness :
    DistinguishedNameToString
        ⟨["US"], ["Acme Co", "Other Org"], ["Unit 1"], ["Springfield"], [], [], [],
          "1234", "Honest Al"⟩ =
      DistinguishedNameToString
        ⟨["DE"], ["Acme Co"], ["Unit 1", "Unit 2"], [], ["Bavaria"],
          ["Main St"], ["999"], "5678", "Honest Al"⟩ :=
  (c10_nameCollision _ _ rfl rfl rfl).1

end Sunlight
